import Mathlib

/-!
Verification of the IR instruction model, global-value expression typing,
Wasm translation configuration defaults, and the codegen pipeline stage of
the compiler, shallowly embedded from the Rust sources.

The file is organized as definitions first (the embedding of the data model
and operations), followed by the theorems about them.
-/

/-! ## External identifier types

The IR data model references several types defined outside the core sources
(`miden_hir` / `miden_diagnostics`): opaque identifiers and enumerations that
the claims use only up to equality.  They are modelled as natural numbers. -/

/-- Models `SourceSpan` (miden-diagnostics): an opaque source position. -/
abbrev SourceSpan := Nat

/-- Models `crate::Value`: an opaque SSA value identifier. -/
abbrev Value := Nat

/-- Models `crate::Block`: an opaque block identifier. -/
abbrev Block := Nat

/-- Models `crate::Ident`: an opaque symbol identifier. -/
abbrev Ident := Nat

/-- Models `crate::Opcode`: an opaque opcode tag. -/
abbrev Opcode := Nat

/-- Models `crate::Overflow`: an opaque overflow-policy tag. -/
abbrev Overflow := Nat

/-- Models `crate::Type` (named `Ty` since `Type` is reserved in Lean):
an opaque IR type, used by the claims only up to equality. -/
abbrev Ty := Nat

/-- Models `FunctionIdent`: an opaque function identifier. -/
abbrev FunctionIdent := Nat

/-! ## Global value expressions (`src/hir/src/parser/ast/instruction.rs`) -/

/-- The Rust enum `GlobalValueExpr`: access or a relative operation on a
global variable.  Mirrors the source variants: `Symbol { symbol, offset }`,
`Load { base, offset, ty: Option<Type> }`,
`IAddImm { base, offset, ty: Type }`.
Note that `IAddImm` carries a required `ty` field in the source. -/
inductive GlobalValueExpr where
  | Symbol (symbol : Ident) (offset : Int)
  | Load (base : GlobalValueExpr) (offset : Int) (ty : Option Ty)
  | IAddImm (base : GlobalValueExpr) (offset : Int) (ty : Ty)
  deriving DecidableEq

/-- The Rust method `GlobalValueExpr::ty`:
`Symbol => None; Load { ty, .. } => ty.clone(); IAddImm { base, .. } => base.ty()`. -/
def GlobalValueExpr.ty : GlobalValueExpr → Option Ty
  | .Symbol _ _ => none
  | .Load _ _ ty => ty
  | .IAddImm base _ _ => base.ty

/-- The number of nodes of a `GlobalValueExpr` tree, used as a termination
measure for the recursion in `GlobalValueExpr.ty`. -/
def GlobalValueExpr.size : GlobalValueExpr → Nat
  | .Symbol _ _ => 1
  | .Load base _ _ => base.size + 1
  | .IAddImm base _ _ => base.size + 1

/-- Fuel-instrumented transcription of `GlobalValueExpr::ty`: each recursive
call of the source method consumes one unit of fuel, and `none` signals fuel
exhaustion.  Used to state that the source recursion terminates. -/
def GlobalValueExpr.tyFuel : Nat → GlobalValueExpr → Option (Option Ty)
  | 0, _ => none
  | _ + 1, .Symbol _ _ => some none
  | _ + 1, .Load _ _ ty => some ty
  | n + 1, .IAddImm base _ _ => base.tyFuel n

/-- An `IAddImm` chain: wraps `base` in `n` nested `IAddImm` nodes (each with
the given offset and declared type), used to state the nested-chain claim. -/
def iaddImmChain : Nat → GlobalValueExpr → Int → Ty → GlobalValueExpr
  | 0, base, _, _ => base
  | n + 1, base, off, t => .IAddImm (iaddImmChain n base off t) off t

/-! ## Instructions (`src/hir/src/parser/ast/instruction.rs`) -/

/-- Models `miden_diagnostics::Span<T>`: an item paired with a source span. -/
structure Span (α : Type) where
  span : SourceSpan
  item : α

/-- The Rust enum `Operand`: an argument to an instruction — a value
reference, a small integer literal (`isize`), or a big integer literal
(`num_bigint::BigInt`); both integer widths are modelled by `Int`. -/
inductive Operand where
  | Value (v : Value)
  | Int (i : Int)
  | BigInt (i : Int)
  deriving DecidableEq

/-- The Rust struct `TypedValue`: a value/type pair (derived structural
equality in Rust). -/
structure TypedValue where
  id : Value
  ty : Ty
  deriving DecidableEq

/-- The Rust struct `Successor`: a branch destination block and its
arguments. -/
structure Successor where
  span : SourceSpan
  id : Block
  args : List Value

/-- The Rust enum `InstType`: the closed set of parseable instruction kinds.
`Switch` cases are span-wrapped `(u32, Successor)` pairs (case values are
modelled by `Nat`); `Call` stores realized `Value`s, unlike the kinds that
store raw `Operand`s. -/
inductive InstType where
  | BinaryOp (opcode : Opcode) (overflow : Option Overflow) (operands : Operand × Operand)
  | UnaryOp (opcode : Opcode) (overflow : Option Overflow) (operand : Operand)
  | Br (opcode : Opcode) (successor : Successor)
  | CondBr (opcode : Opcode) (cond : Operand) (then_dest : Successor) (else_dest : Successor)
  | Switch (opcode : Opcode) (input : Operand) (successors : List (Span (Nat × Successor)))
      (fallback : Successor)
  | Ret (opcode : Opcode) (operands : List Operand)
  | Call (opcode : Opcode) (callee : FunctionIdent) (operands : List Value)
  | CallIndirect (opcode : Opcode) (operands : List Operand)
  | PrimOp (opcode : Opcode) (operands : List Operand)
  | GlobalValue (opcode : Opcode) (expr : GlobalValueExpr)

/-- The Rust struct `Inst`: a source-spanned instruction kind with its
output values. -/
structure Inst where
  span : SourceSpan
  ty : InstType
  outputs : List TypedValue

/-- The manual `impl PartialEq for Successor`: compares target block id and
argument sequence, ignoring the span. -/
def Successor.beq (a b : Successor) : Bool :=
  a.id == b.id && decide (a.args = b.args)

/-- Equality of one span-wrapped `Switch` case: `miden_diagnostics::Span<T>`
equality compares only the wrapped item, and the pair compares the `u32` case
value structurally and the successor via `Successor`'s manual equality. -/
def switchCaseBEq (a b : Span (Nat × Successor)) : Bool :=
  a.item.1 == b.item.1 && Successor.beq a.item.2 b.item.2

/-- Elementwise list equality, parameterized by the element comparison
(models `Vec<T>` equality over a manual element `PartialEq`). -/
def listBEq (f : α → α → Bool) : List α → List α → Bool
  | [], [] => true
  | a :: as, b :: bs => f a b && listBEq f as bs
  | _, _ => false

/-- The derived `impl PartialEq for InstType`: structural comparison of each
variant's fields, where `Successor` fields use the manual span-ignoring
equality. -/
def instTypeBEq : InstType → InstType → Bool
  | .BinaryOp op ov ops, .BinaryOp op' ov' ops' =>
      op == op' && ov == ov' && decide (ops = ops')
  | .UnaryOp op ov o, .UnaryOp op' ov' o' =>
      op == op' && ov == ov' && decide (o = o')
  | .Br op s, .Br op' s' => op == op' && Successor.beq s s'
  | .CondBr op c t e, .CondBr op' c' t' e' =>
      op == op' && decide (c = c') && Successor.beq t t' && Successor.beq e e'
  | .Switch op i cs fb, .Switch op' i' cs' fb' =>
      op == op' && decide (i = i') && listBEq switchCaseBEq cs cs' && Successor.beq fb fb'
  | .Ret op os, .Ret op' os' => op == op' && decide (os = os')
  | .Call op c vs, .Call op' c' vs' =>
      op == op' && decide (c = c') && decide (vs = vs')
  | .CallIndirect op os, .CallIndirect op' os' => op == op' && decide (os = os')
  | .PrimOp op os, .PrimOp op' os' => op == op' && decide (os = os')
  | .GlobalValue op e, .GlobalValue op' e' => op == op' && decide (e = e')
  | _, _ => false

/-- The manual `impl PartialEq for Inst`: compares instruction kind and
outputs, ignoring the span. -/
def Inst.beq (a b : Inst) : Bool :=
  instTypeBEq a.ty b.ty && decide (a.outputs = b.outputs)

/-- The operand sequence of each instruction kind viewed uniformly as
`Operand`s: kinds that store raw `Operand`s yield them as-is, while `Call`
stores realized `Value`s, which can only enter the operand view through the
`Operand.Value` injection. -/
def InstType.instOperands : InstType → List Operand
  | .BinaryOp _ _ ops => [ops.1, ops.2]
  | .UnaryOp _ _ o => [o]
  | .Br _ _ => []
  | .CondBr _ c _ _ => [c]
  | .Switch _ i _ _ => [i]
  | .Ret _ os => os
  | .Call _ _ vs => vs.map Operand.Value
  | .CallIndirect _ os => os
  | .PrimOp _ os => os
  | .GlobalValue _ _ => []

/-- Modelled from the spec: the selection of a `Switch` successor given an
input tag.  The evaluator itself is not under `src/` (only the `Switch` data
shape is); §4.1 of the spec fixes its semantics: "case values are unsigned
32-bit tags matched for exact equality against `input`; first structural
match in the ordered sequence wins if duplicates exist ...; if none match,
control transfers to `fallback`". -/
def switchSelect (input : Nat) (fallback : Successor) :
    List (Span (Nat × Successor)) → Successor
  | [] => fallback
  | c :: rest => if c.item.1 = input then c.item.2 else switchSelect input fallback rest

/-! ## Codegen stage (`src/midenc-driver/src/commands/compile/stages/codegen.rs`) -/

/-- Modelled from the spec: the compilation session (external interface,
§6) — "read-only configuration surface answering at minimum 'should code
generation run'".  Only that answer is modelled. -/
structure Session where
  should_codegen : Bool

/-- Modelled from the spec: `MaybeLinked`, the input artifact of the codegen
stage, produced by the upstream link-or-defer stage (not under `src/`): "a
tagged artifact that is either a single linked program or an ordered list of
unlinked modules" (§4.4) — exactly the two shapes `CodegenStage::run`
matches on. -/
inductive MaybeLinked (P M : Type) where
  | Linked (program : P)
  | Unlinked (modules : List M)

/-- The Rust enum `Compiled`: the code generator's output — either a single
program or a collection of modules, depending on earlier stages. -/
inductive Compiled (CP CM : Type) where
  | Program (program : CP)
  | Modules (modules : List CM)

/-- The per-module conversion loop of `CodegenStage::run`, rendered as
structural recursion over the module list: each module is converted in input
order with the converter's mutable context (converter instance plus analysis
manager) threaded through as explicit state `σ`; the first conversion
failure aborts with that failure, otherwise the compiled modules are
accumulated in order. -/
def convertModules {M CM σ E : Type} (convert : σ → Session → M → Except E (CM × σ))
    (sess : Session) : σ → List M → Except E (List CM × σ)
  | st, [] => .ok ([], st)
  | st, m :: rest =>
      (convert st sess m).bind fun p =>
        (convertModules convert sess p.2 rest).bind fun q =>
          .ok (p.1 :: q.1, q.2)

/-- The Rust method `CodegenStage::run`: on a linked program, run the
program-level converter once (from its freshly defaulted context `initP`)
and wrap the result in `Compiled.Program`; on an unlinked module collection,
run the module-level converter over each module in order (threading the
context from `initM`) and wrap the results in `Compiled.Modules`.  The
external `ConvertHirToMasm` converters (§6) are passed as explicit
state-threading functions. -/
def CodegenStage.run {P M CP CM σp σm E : Type}
    (convertProgram : σp → Session → P → Except E (CP × σp))
    (convertModule : σm → Session → M → Except E (CM × σm))
    (initP : σp) (initM : σm) (sess : Session) :
    MaybeLinked P M → Except E (Compiled CP CM)
  | .Linked program =>
      (convertProgram initP sess program).map fun pr => Compiled.Program pr.1
  | .Unlinked modules =>
      (convertModules convertModule sess initM modules).map fun pr => Compiled.Modules pr.1

/-- The Rust method `CodegenStage::enabled`: the stage is enabled iff the
session requests code generation. -/
def CodegenStage.enabled (session : Session) : Bool :=
  session.should_codegen

/-! ## Wasm translation configuration (`src/frontend-wasm/src/config.rs`) -/

/-- Models `InterfaceFunctionIdent` (miden_hir): an opaque identifier. -/
abbrev InterfaceFunctionIdent := Nat

/-- Models `FunctionExportName` (miden_hir): an opaque export name. -/
abbrev FunctionExportName := Nat

/-- Models `MastRootHash` (miden_hir): an opaque content-addressed hash. -/
abbrev MastRootHash := Nat

/-- Models `FunctionInvocationMethod` (miden_hir): an opaque calling tag. -/
abbrev FunctionInvocationMethod := Nat

/-- The Rust struct `ImportMetadata`: codegen metadata for a function
import. -/
structure ImportMetadata where
  function_mast_root_hash : MastRootHash
  invoke_method : FunctionInvocationMethod

/-- The Rust struct `ExportMetadata`: metadata for a function export. -/
structure ExportMetadata where
  invoke_method : FunctionInvocationMethod

/-- The Rust struct `WasmTranslationConfig`: configuration for the Wasm
translation.  The `HashMap` metadata maps are modelled as association
lists. -/
structure WasmTranslationConfig where
  module_name_fallback : String
  generate_native_debuginfo : Bool
  parse_wasm_debuginfo : Bool
  import_metadata : List (InterfaceFunctionIdent × ImportMetadata)
  export_metadata : List (FunctionExportName × ExportMetadata)

/-- The Rust `impl Default for WasmTranslationConfig`: fallback name
`"noname"`, both debug-info flags `false`, both metadata maps empty
(`Default::default()` of a `HashMap` is the empty map). -/
def WasmTranslationConfig.default : WasmTranslationConfig :=
  ⟨"noname", false, false, [], []⟩

/-! ## Theorems: global value expression typing (C3, C5, C7) -/

theorem iaddImmChain_ty (n : Nat) (base : GlobalValueExpr) (off : Int) (t : Ty) :
    (iaddImmChain n base off t).ty = base.ty := by
  induction n with
  | zero => rfl
  | succ n ih => simpa [iaddImmChain, GlobalValueExpr.ty] using ih

/-- C3: `GlobalValueExpr::ty` returns `none` for a `Symbol`, the declared type
(`some T` or `none`) for a `Load`, and the base's type for an `IAddImm`, so
arbitrarily nested `IAddImm` chains resolve to the type of the innermost
non-`IAddImm` node. -/
theorem globalValueExpr_ty_rules :
    (∀ (symbol : Ident) (offset : Int),
        (GlobalValueExpr.Symbol symbol offset).ty = none) ∧
    (∀ (base : GlobalValueExpr) (offset : Int) (T : Ty),
        (GlobalValueExpr.Load base offset (some T)).ty = some T) ∧
    (∀ (base : GlobalValueExpr) (offset : Int),
        (GlobalValueExpr.Load base offset none).ty = none) ∧
    (∀ (base : GlobalValueExpr) (offset : Int) (t : Ty),
        (GlobalValueExpr.IAddImm base offset t).ty = base.ty) ∧
    (∀ (n : Nat) (base : GlobalValueExpr) (offset : Int) (t : Ty),
        (iaddImmChain n base offset t).ty = base.ty) :=
  ⟨fun _ _ => rfl, fun _ _ _ => rfl, fun _ _ => rfl, fun _ _ _ => rfl,
    fun n base off t => iaddImmChain_ty n base off t⟩

/-- C5 counterexample: the `IAddImm` variant does carry a type declaration of
its own — two `IAddImm` nodes over the same base with the same offset but
different declared types are distinct values — even though the typing
function ignores that declaration (both type to `none` over a `Symbol` base). -/
theorem iaddImm_carries_own_ty_counterexample :
    (GlobalValueExpr.IAddImm (.Symbol 0 0) 0 1 ≠
      GlobalValueExpr.IAddImm (.Symbol 0 0) 0 2) ∧
    (GlobalValueExpr.IAddImm (.Symbol 0 0) 0 1).ty = none ∧
    (GlobalValueExpr.IAddImm (.Symbol 0 0) 0 2).ty = none := by
  refine ⟨?_, rfl, rfl⟩
  decide

/-- C5 (amended): the `IAddImm` variant carries a required declared-type field
of its own, but the typing function never consults it: the type of an
`IAddImm` node is always obtained from the base expression, and is therefore
independent of the declared type. -/
theorem iaddImm_ty_inherits_base :
    ∀ (base : GlobalValueExpr) (offset : Int) (t t' : Ty),
      (GlobalValueExpr.IAddImm base offset t).ty = base.ty ∧
      (GlobalValueExpr.IAddImm base offset t).ty =
        (GlobalValueExpr.IAddImm base offset t').ty :=
  fun _ _ _ _ => ⟨rfl, rfl⟩

/-- C7: the recursion in `GlobalValueExpr::ty` terminates on every expression:
with fuel at least the size of the (finite, non-cyclic) expression tree, the
fuel-instrumented transcription never exhausts its fuel and computes exactly
the total typing function. -/
theorem globalValueExpr_ty_terminates (e : GlobalValueExpr) (n : Nat)
    (h : e.size ≤ n) : e.tyFuel n = some e.ty := by
  induction e generalizing n with
  | Symbol s off =>
      cases n with
      | zero => exact absurd h (by simp [GlobalValueExpr.size])
      | succ n => rfl
  | Load base off ty ih =>
      cases n with
      | zero => exact absurd h (by simp [GlobalValueExpr.size])
      | succ n => rfl
  | IAddImm base off t ih =>
      cases n with
      | zero => exact absurd h (by simp [GlobalValueExpr.size])
      | succ n =>
          have : base.size ≤ n := by
            have := h
            simp only [GlobalValueExpr.size] at this
            omega
          simpa [GlobalValueExpr.tyFuel, GlobalValueExpr.ty] using ih n this

/-- C7 witness: the termination theorem applied to a concrete three-deep
`IAddImm` chain over a `Load` with declared type `7`. -/
theorem globalValueExpr_ty_terminates_witness :
    (GlobalValueExpr.IAddImm
      (.IAddImm (.IAddImm (.Load (.Symbol 0 0) 4 (some 7)) 1 9) 2 9) 3 9).tyFuel 5 =
      some (some 7) :=
  globalValueExpr_ty_terminates
    (GlobalValueExpr.IAddImm
      (.IAddImm (.IAddImm (.Load (.Symbol 0 0) 4 (some 7)) 1 9) 2 9) 3 9) 5
    (by decide)

/-! ## Theorems: instruction equality and operands (C4, C9, C6) -/

theorem Successor.beq_refl (s : Successor) : Successor.beq s s = true := by
  simp [Successor.beq]

theorem listBEq_refl (f : α → α → Bool) (hf : ∀ a, f a a = true) (l : List α) :
    listBEq f l l = true := by
  induction l with
  | nil => rfl
  | cons a as ih => simp [listBEq, hf, ih]

theorem instTypeBEq_refl (t : InstType) : instTypeBEq t t = true := by
  cases t <;>
    simp [instTypeBEq, Successor.beq_refl,
      listBEq_refl switchCaseBEq (fun c => by simp [switchCaseBEq, Successor.beq_refl])]

/-- C4: `Inst` equality holds for equal kind and outputs whatever the spans,
and holds only when kind and outputs are equal; `Successor` equality holds
for equal target id and arguments whatever the spans, and holds only when
target id and arguments are equal — source position is excluded from both. -/
theorem inst_successor_eq_ignores_span :
    (∀ (s s' : SourceSpan) (t : InstType) (o : List TypedValue),
        Inst.beq ⟨s, t, o⟩ ⟨s', t, o⟩ = true) ∧
    (∀ (s s' : SourceSpan) (b : Block) (args : List Value),
        Successor.beq ⟨s, b, args⟩ ⟨s', b, args⟩ = true) ∧
    (∀ a b : Inst,
        Inst.beq a b = true ↔ instTypeBEq a.ty b.ty = true ∧ a.outputs = b.outputs) ∧
    (∀ a b : Successor,
        Successor.beq a b = true ↔ a.id = b.id ∧ a.args = b.args) := by
  refine ⟨fun s s' t o => ?_, fun s s' b args => ?_, fun a b => ?_, fun a b => ?_⟩
  · simp [Inst.beq, instTypeBEq_refl]
  · simp [Successor.beq]
  · simp [Inst.beq]
  · simp [Successor.beq]

/-- C4 witness: the span-exclusion theorem applied to two concrete `Ret`
instructions that differ only in their source spans (`0` and `3`): they are
equal. -/
theorem inst_successor_eq_ignores_span_witness :
    Inst.beq ⟨0, .Ret 0 [], [⟨1, 2⟩]⟩ ⟨3, .Ret 0 [], [⟨1, 2⟩]⟩ = true :=
  inst_successor_eq_ignores_span.1 0 3 (.Ret 0 []) [⟨1, 2⟩]

/-- C9: every operand of a `Call` instruction is a realized value reference —
never an `Int` or `BigInt` literal — because the `Call` variant's operand
sequence admits only values. -/
theorem call_operands_are_values (opcode : Opcode) (callee : FunctionIdent)
    (vs : List Value) (o : Operand)
    (h : o ∈ (InstType.Call opcode callee vs).instOperands) :
    ∃ v : Value, o = Operand.Value v := by
  simp only [InstType.instOperands, List.mem_map] at h
  obtain ⟨v, _, rfl⟩ := h
  exact ⟨v, rfl⟩

/-- C9 witness: the value-only operand theorem applied to a concrete `Call`
with operand list `[5, 6]` at the operand `Operand.Value 5`. -/
theorem call_operands_are_values_witness :
    ∃ v : Value, Operand.Value 5 = Operand.Value v :=
  call_operands_are_values 0 1 [5, 6] (Operand.Value 5) (by simp [InstType.instOperands])

theorem switchSelect_first_match (input : Nat) (fallback S : Successor)
    (sp : SourceSpan) (pre post : List (Span (Nat × Successor)))
    (hpre : ∀ c ∈ pre, c.item.1 ≠ input) :
    switchSelect input fallback (pre ++ ⟨sp, (input, S)⟩ :: post) = S := by
  induction pre with
  | nil => simp [switchSelect]
  | cons c cs ih =>
      have hc : c.item.1 ≠ input := hpre c (by simp)
      simp only [List.cons_append, switchSelect, if_neg hc]
      exact ih fun d hd => hpre d (by simp [hd])

/-- C6: `Switch` matching selects the first structurally matching case in
list order — for case list `[(1, A), (2, B), (1, C)]` and input tag `1` the
chosen successor is always `A`, for any spans and successors; in general the
first match wins over any non-matching prefix; and when no case value equals
the input, control transfers to the fallback successor. -/
theorem switch_first_match_wins :
    (∀ (sA sB sC : SourceSpan) (A B C fallback : Successor),
        switchSelect 1 fallback [⟨sA, (1, A)⟩, ⟨sB, (2, B)⟩, ⟨sC, (1, C)⟩] = A) ∧
    (∀ (input : Nat) (fallback S : Successor) (sp : SourceSpan)
        (pre post : List (Span (Nat × Successor))),
        (∀ c ∈ pre, c.item.1 ≠ input) →
        switchSelect input fallback (pre ++ ⟨sp, (input, S)⟩ :: post) = S) ∧
    (∀ (input : Nat) (fallback : Successor) (cases : List (Span (Nat × Successor))),
        (∀ c ∈ cases, c.item.1 ≠ input) →
        switchSelect input fallback cases = fallback) := by
  refine ⟨fun sA sB sC A B C fb => ?_,
    fun input fb S sp pre post hpre => switchSelect_first_match input fb S sp pre post hpre,
    fun input fb cases hcases => ?_⟩
  · simp [switchSelect]
  · induction cases with
    | nil => rfl
    | cons c cs ih =>
        have hc : c.item.1 ≠ input := hcases c (by simp)
        simp only [switchSelect, if_neg hc]
        exact ih fun d hd => hcases d (by simp [hd])

/-- C6 witness: the first-match theorem applied to the concrete case list
`[(2, B), (1, A), (1, C)]` with input tag `1`: the non-matching prefix
`[(2, B)]` is skipped and the first matching case `A` (block `10`) is
chosen, not the later duplicate `C` (block `12`). -/
theorem switch_first_match_wins_witness :
    switchSelect 1 ⟨0, 9, []⟩
      ([⟨0, (2, ⟨0, 11, []⟩)⟩] ++ ⟨5, (1, ⟨0, 10, []⟩)⟩ :: [⟨0, (1, ⟨0, 12, []⟩)⟩]) =
      ⟨0, 10, []⟩ :=
  switch_first_match_wins.2.1 1 ⟨0, 9, []⟩ ⟨0, 10, []⟩ 5
    [⟨0, (2, ⟨0, 11, []⟩)⟩] [⟨0, (1, ⟨0, 12, []⟩)⟩] (by decide)

/-! ## Theorems: codegen stage (C1, C2, C8) -/

theorem exceptBind_ok {α β E : Type} (a : α) (f : α → Except E β) :
    (Except.ok a : Except E α).bind f = f a := rfl

theorem exceptBind_error {α β E : Type} (e : E) (f : α → Except E β) :
    (Except.error e : Except E α).bind f = .error e := rfl

theorem exceptMap_ok {α β E : Type} (f : α → β) (a : α) :
    (Except.ok a : Except E α).map f = .ok (f a) := rfl

theorem exceptMap_error {α β E : Type} (f : α → β) (e : E) :
    (Except.error e : Except E α).map f = .error e := rfl

theorem convertModules_ok_spec {M CM σ E : Type}
    (convert : σ → Session → M → Except E (CM × σ)) (sess : Session)
    (ms : List M) (st : σ) (cms : List CM) (st' : σ)
    (h : convertModules convert sess st ms = .ok (cms, st')) :
    cms.length = ms.length ∧
      ∀ (i : Nat) (hi : i < ms.length) (hi' : i < cms.length),
        ∃ σa σb, convert σa sess (ms.get ⟨i, hi⟩) = .ok (cms.get ⟨i, hi'⟩, σb) := by
  induction ms generalizing st cms st' with
  | nil =>
      simp only [convertModules, Except.ok.injEq, Prod.mk.injEq] at h
      obtain ⟨rfl, rfl⟩ := h
      exact ⟨rfl, fun i hi => absurd hi (by simp)⟩
  | cons m rest ih =>
      simp only [convertModules] at h
      cases hconv : convert st sess m with
      | error e =>
          rw [hconv, exceptBind_error] at h
          exact Except.noConfusion h
      | ok p =>
          simp only [hconv, exceptBind_ok] at h
          cases hrest : convertModules convert sess p.2 rest with
          | error e =>
              simp only [hrest, exceptBind_error] at h
              exact Except.noConfusion h
          | ok q =>
              simp only [hrest, exceptBind_ok] at h
              simp only [Except.ok.injEq, Prod.mk.injEq] at h
              obtain ⟨rfl, rfl⟩ := h
              obtain ⟨hlen, hidx⟩ := ih p.2 q.1 q.2 hrest
              refine ⟨by simpa using hlen, fun i hi hi' => ?_⟩
              cases i with
              | zero => exact ⟨st, p.2, hconv⟩
              | succ i =>
                  exact hidx i (Nat.lt_of_succ_lt_succ hi) (Nat.lt_of_succ_lt_succ hi')

/-- C1: the output shape of `CodegenStage::run` mirrors the input shape — a
linked program yields (on success) a single compiled program, and an
unlinked collection of `N` modules yields a compiled-module collection of
exactly `N` elements whose `i`-th element is the converter's output on the
`i`-th input module; the stage never converts one shape into the other. -/
theorem codegenStage_run_mirrors_shape {P M CP CM σp σm E : Type}
    (convertProgram : σp → Session → P → Except E (CP × σp))
    (convertModule : σm → Session → M → Except E (CM × σm))
    (initP : σp) (initM : σm) (sess : Session)
    (input : MaybeLinked P M) (r : Compiled CP CM)
    (h : CodegenStage.run convertProgram convertModule initP initM sess input = .ok r) :
    match input with
    | .Linked _ => ∃ cp, r = .Program cp
    | .Unlinked ms =>
        ∃ cms, r = .Modules cms ∧ cms.length = ms.length ∧
          ∀ (i : Nat) (hi : i < ms.length) (hi' : i < cms.length),
            ∃ σa σb,
              convertModule σa sess (ms.get ⟨i, hi⟩) = .ok (cms.get ⟨i, hi'⟩, σb) := by
  cases input with
  | Linked program =>
      simp only [CodegenStage.run] at h
      cases hconv : convertProgram initP sess program with
      | error e =>
          rw [hconv, exceptMap_error] at h
          exact Except.noConfusion h
      | ok pr =>
          simp only [hconv, exceptMap_ok, Except.ok.injEq] at h
          exact ⟨pr.1, h.symm⟩
  | Unlinked ms =>
      simp only [CodegenStage.run] at h
      cases hconv : convertModules convertModule sess initM ms with
      | error e =>
          rw [hconv, exceptMap_error] at h
          exact Except.noConfusion h
      | ok pr =>
          simp only [hconv, exceptMap_ok, Except.ok.injEq] at h
          obtain ⟨hlen, hidx⟩ :=
            convertModules_ok_spec convertModule sess ms initM pr.1 pr.2 hconv
          exact ⟨pr.1, h.symm, hlen, hidx⟩

/-- C1 witness: the shape-mirroring theorem applied to a concrete linked
program input, with a converter that adds one: the output is the single
compiled program `6`. -/
theorem codegenStage_run_mirrors_shape_witness :
    ∃ cp : Nat, (Compiled.Program 6 : Compiled Nat Nat) = .Program cp :=
  codegenStage_run_mirrors_shape
    (fun (s : Unit) (_ : Session) (p : Nat) => (.ok (p + 1, s) : Except Nat (Nat × Unit)))
    (fun (s : Unit) (_ : Session) (m : Nat) => (.ok (m * 2, s) : Except Nat (Nat × Unit)))
    () () ⟨true⟩ (.Linked 5) (.Program 6) rfl

theorem convertModules_append {M CM σ E : Type}
    (convert : σ → Session → M → Except E (CM × σ)) (sess : Session)
    (l1 l2 : List M) (st : σ) :
    convertModules convert sess st (l1 ++ l2) =
      (convertModules convert sess st l1).bind fun p =>
        (convertModules convert sess p.2 l2).bind fun q =>
          .ok (p.1 ++ q.1, q.2) := by
  induction l1 generalizing st with
  | nil =>
      cases h : convertModules convert sess st l2 with
      | error e => simp [convertModules, exceptBind_ok, exceptBind_error, h]
      | ok q => simp [convertModules, exceptBind_ok, h]
  | cons m rest ih =>
      simp only [List.cons_append, convertModules]
      cases hconv : convert st sess m with
      | error e => simp [hconv, exceptBind_error]
      | ok p =>
          simp only [hconv, exceptBind_ok]
          simp only [List.append_eq]
          rw [ih p.2]
          cases h1 : convertModules convert sess p.2 rest with
          | error e => simp [h1, exceptBind_error]
          | ok a =>
              cases h2 : convertModules convert sess a.2 l2 with
              | error e => simp [h1, h2, exceptBind_ok, exceptBind_error]
              | ok b => simp [h1, h2, exceptBind_ok]

/-- C2: `CodegenStage::run` fails fast on an unlinked module collection — if
every module before `m` converts successfully (reaching converter context
`σf`) and the converter fails on `m` with error `e`, the stage's result is
exactly that error, whatever modules follow; no partial list of compiled
modules is observable in the result. -/
theorem codegenStage_run_fail_fast {P M CP CM σp σm E : Type}
    (convertProgram : σp → Session → P → Except E (CP × σp))
    (convertModule : σm → Session → M → Except E (CM × σm))
    (initP : σp) (initM : σm) (sess : Session)
    (pre : List M) (m : M) (post : List M) (cs : List CM) (σf : σm) (e : E)
    (hpre : convertModules convertModule sess initM pre = .ok (cs, σf))
    (hm : convertModule σf sess m = .error e) :
    CodegenStage.run convertProgram convertModule initP initM sess
      (.Unlinked (pre ++ m :: post)) = .error e := by
  simp only [CodegenStage.run,
    convertModules_append convertModule sess pre (m :: post) initM]
  simp only [hpre, exceptBind_ok, convertModules, hm, exceptBind_error,
    exceptMap_error]

/-- C2 witness: the fail-fast theorem applied to the module list `[1, 0, 3]`
with a converter that fails with error `7` on module `0`: the stage result
is exactly `error 7`. -/
theorem codegenStage_run_fail_fast_witness :
    CodegenStage.run
      (fun (s : Unit) (_ : Session) (p : Nat) => (.ok (p, s) : Except Nat (Nat × Unit)))
      (fun (s : Unit) (_ : Session) (m : Nat) =>
        if m = 0 then .error 7 else (.ok (m, s) : Except Nat (Nat × Unit)))
      () () ⟨true⟩ (.Unlinked [1, 0, 3]) = (.error 7 : Except Nat (Compiled Nat Nat)) :=
  codegenStage_run_fail_fast _ _ () () ⟨true⟩ [1] 0 [3] [1] () 7 rfl rfl

/-- C8: `CodegenStage::enabled` returns `true` exactly when the session's
configuration indicates code generation is requested. -/
theorem codegenStage_enabled_iff_should_codegen :
    ∀ session : Session,
      CodegenStage.enabled session = session.should_codegen ∧
      (CodegenStage.enabled session = true ↔ session.should_codegen = true) :=
  fun _ => ⟨rfl, Iff.rfl⟩

/-! ## Theorems: Wasm translation configuration (C10) -/

/-- C10: the default `WasmTranslationConfig` uses the module-name fallback
`"noname"`, disables native DWARF debug-info generation and Wasm debug-info
parsing, and has empty import- and export-metadata maps. -/
theorem wasmTranslationConfig_default_values :
    WasmTranslationConfig.default.module_name_fallback = "noname" ∧
    WasmTranslationConfig.default.generate_native_debuginfo = false ∧
    WasmTranslationConfig.default.parse_wasm_debuginfo = false ∧
    WasmTranslationConfig.default.import_metadata = [] ∧
    WasmTranslationConfig.default.export_metadata = [] :=
  ⟨rfl, rfl, rfl, rfl, rfl⟩
